import Mathlib

/-!
Shallow embedding of `src/shrinkable.orig.js` (the Shrinkable library).

JavaScript numbers are modelled as exact rationals (ℚ); the decimal
rounding performed by `Number.prototype.toFixed(2)` is modelled
explicitly.  DOM style state is modelled as a function from
(element id, property name) to a style value.  Strings captured from
computed styles are modelled as Lean `String`s.
-/

namespace Shrinkable

/-- Rounding as in `Number.prototype.toFixed(2)`, as an integer count of
hundredths: nearest value, ties towards the larger candidate `n`
(per the ECMAScript algorithm, applied to the magnitude when the
input is negative). -/
def round2 (q : ℚ) : ℤ := Int.floor (q * 100 + 1/2)

/-- Render a nonnegative count of hundredths as a fixed two-decimal string,
e.g. `75 ↦ "0.75"`, `3333 ↦ "33.33"`. -/
def natFixed2 (n : ℕ) : String :=
  Nat.repr (n / 100) ++ "." ++ (if n % 100 < 10 then "0" else "") ++ Nat.repr (n % 100)

/-- Model of `x.toFixed(2)` as a string (ECMAScript: a leading minus sign,
then the magnitude rounded to hundredths). -/
def toFixed2 (q : ℚ) : String :=
  if q < 0 then "-" ++ natFixed2 (round2 (-q)).toNat else natFixed2 (round2 q).toNat

/-- Model of `parseFloat(x.toFixed(2))` as a rational: the value rounded to
hundredths. -/
def toFixed2Val (q : ℚ) : ℚ :=
  if q < 0 then -(((round2 (-q)).toNat : ℚ) / 100) else ((round2 q).toNat : ℚ) / 100

/-- Skip the leading whitespace of a character list
(step 1 of `parseInt`). -/
def skipWs : List Char → List Char
  | [] => []
  | c :: cs => if c.isWhitespace then skipWs cs else c :: cs

/-- Value of a decimal digit character, if it is one. -/
def decDigit (c : Char) : Option ℕ :=
  if c.isDigit then some (c.toNat - '0'.toNat) else none

/-- Value of a hexadecimal digit character, if it is one. -/
def hexDigit (c : Char) : Option ℕ :=
  if c.isDigit then some (c.toNat - '0'.toNat)
  else if 'a' ≤ c ∧ c ≤ 'f' then some (c.toNat - 'a'.toNat + 10)
  else if 'A' ≤ c ∧ c ≤ 'F' then some (c.toNat - 'A'.toNat + 10)
  else none

/-- Longest leading run of digits recognised by `p`. -/
def digitRun (p : Char → Option ℕ) : List Char → List ℕ
  | [] => []
  | c :: cs =>
    match p c with
    | some d => d :: digitRun p cs
    | none => []

/-- Numeric value of a digit list in the given radix. -/
def valOfDigits (radix : ℕ) (ds : List ℕ) : ℕ :=
  ds.foldl (fun a d => a * radix + d) 0

/-- Model of `parseInt(s)` with no radix argument: skip whitespace, read an
optional sign, detect a `0x`/`0X` prefix (hexadecimal) and otherwise
parse the longest leading decimal digit run; `none` models `NaN`. -/
def jsParseInt (s : String) : Option ℤ :=
  let cs := skipWs s.data
  let signAndRest : ℤ × List Char :=
    match cs with
    | '-' :: rest => (-1, rest)
    | '+' :: rest => (1, rest)
    | rest => (1, rest)
  let sign := signAndRest.1
  let body := signAndRest.2
  let radixAndDigits : ℕ × List ℕ :=
    match body with
    | '0' :: 'x' :: rest => (16, digitRun hexDigit rest)
    | '0' :: 'X' :: rest => (16, digitRun hexDigit rest)
    | rest => (10, digitRun decDigit rest)
  match radixAndDigits.2 with
  | [] => none
  | ds => some (sign * (valOfDigits radixAndDigits.1 ds : ℤ))

/-- Function `_getStyleValueInEm` (lines 238-252): `parseInt` the style value; a
truthy result (a nonzero integer; `NaN` and `0` are falsy) is divided by
`parentEmSize`, fixed to two decimals, with `'em'` appended; otherwise
the input string is returned unchanged. -/
def _getStyleValueInEm (styleValue : String) (parentEmSize : ℚ) : String :=
  match jsParseInt styleValue with
  | some v => if v ≠ 0 then toFixed2 ((v : ℚ) / parentEmSize) ++ "em" else styleValue
  | none => styleValue

/-- Function `_getScale` (lines 151-161):
`(0 >= baseValue) ? 0 : parseFloat((100 * scaledValue / baseValue).toFixed(2)) / 100`. -/
def _getScale (baseValue scaledValue : ℚ) : ℚ :=
  if baseValue ≤ 0 then 0 else toFixed2Val (100 * scaledValue / baseValue) / 100

/-- A style slot of the modelled DOM: either never written by the
library, or a written value with a numeric part and a unit suffix
(`el.style.fontSize = <number> + <units>`). -/
inductive StyleVal where
  | unset : StyleVal
  | written (value : ℚ) (units : String) : StyleVal
deriving DecidableEq

/-- Inline style state: element id × property name → style value. -/
def Dom : Type := ℕ → String → StyleVal

/-- A single inline-style assignment `element.style[prop] = v`. -/
def setStyle (dom : Dom) (e : ℕ) (prop : String) (v : StyleVal) : Dom :=
  fun e2 p2 => if e2 = e ∧ p2 = prop then v else dom e2 p2

/-- The closed-over per-instance state built by the `Shrinkable`
constructor (lines 35-49 and 283-293): the target element, the
`fullWidth` and `minScale` constructor arguments, and the font size
and units captured from the target's computed style at construction
(`_encapsulatingFontSize` is the first digit run, hence a natural
number, `_encapsulatingFontUnits` the first letter run). -/
structure Config where
  el : ℕ
  fullWidth : ℚ
  minScale : ℚ
  watchStyles : List String
  encapsulatingFontSize : ℕ
  encapsulatingFontUnits : String

/-- Function `_shrink` (lines 135-140):
`_el.style.fontSize = _encapsulatingFontSize * _getScale(_fullWidth, _el.clientWidth) + _encapsulatingFontUnits`.
`clientWidth` is the target's current width, read from the environment. -/
def _shrink (cfg : Config) (clientWidth : ℚ) (dom : Dom) : Dom :=
  setStyle dom cfg.el "font-size"
    (.written ((cfg.encapsulatingFontSize : ℚ) * _getScale cfg.fullWidth clientWidth)
      cfg.encapsulatingFontUnits)

/-- Function `_normalize` (lines 143-148):
`_el.style.fontSize = _encapsulatingFontSize + _encapsulatingFontUnits`
(string concatenation of the captured digit run and unit run). -/
def _normalize (cfg : Config) (dom : Dom) : Dom :=
  setStyle dom cfg.el "font-size"
    (.written (cfg.encapsulatingFontSize : ℚ) cfg.encapsulatingFontUnits)

/-- Runtime state after construction: the inline styles and whether the
window resize listener is attached. -/
structure SState where
  dom : Dom
  listenerAttached : Bool

/-- The externally observable operations after construction: the public
methods `Enable`, `Disable` and `Shrink`, and a window resize event
firing at a given current client width. -/
inductive Op where
  | enable (clientWidth : ℚ)
  | disable
  | shrinkCall (clientWidth : ℚ)
  | resizeEvent (clientWidth : ℚ)

/-- One step of the instance: `_enable` attaches the resize listener and
immediately calls `_shrink` (lines 115-122); `_disable` removes the
listener and calls `_normalize` (lines 125-132); the public `Shrink`
runs `_shrink` directly; a window resize event runs `_shrink` only when
the listener is attached. -/
def step (cfg : Config) (st : SState) : Op → SState
  | .enable cw => { dom := _shrink cfg cw st.dom, listenerAttached := true }
  | .disable => { dom := _normalize cfg st.dom, listenerAttached := false }
  | .shrinkCall cw => { dom := _shrink cfg cw st.dom, listenerAttached := st.listenerAttached }
  | .resizeEvent cw =>
    if st.listenerAttached then
      { dom := _shrink cfg cw st.dom, listenerAttached := st.listenerAttached }
    else st

/-- The keys of the object literal returned by the constructor
(lines 296-300): `{ Shrink: _shrink, Enable: _enable, Disable: _disable }`. -/
def returnedMethodNames : List String := ["Shrink", "Enable", "Disable"]

mutual

/-- A DOM node as seen by `_recurseElement`: an element node
(`nodeType === 1`) with an id and an ordered list of child nodes, or a
non-element node (text, comment, ...). -/
inductive DNode where
  | elem (id : ℕ) (children : DForest) : DNode
  | other (id : ℕ) : DNode

/-- An ordered list of sibling DOM nodes (`element.childNodes`). -/
inductive DForest where
  | nil : DForest
  | cons (head : DNode) (tail : DForest) : DForest

end

/-- The observable actions performed by the conversion walk:
`measure id` is the synthetic-probe measurement
`_getPixelsInOneEm`/`_getPxSizeOfTestElement` run in element `id`'s
context; `convert id s` is the style-rewriting block guarded by
`if(parentEmSize)` (lines 69-79) — `_convertStylesToEm(element, s)`
followed by the line-height rectification — all of whose style writes
target element `id` itself. -/
inductive Ev where
  | measure (id : ℕ) : Ev
  | convert (id : ℕ) (parentEmSize : ℕ) : Ev
deriving DecidableEq

mutual

/-- Function `_recurseElement` (lines 52-81) as a trace of actions.  `m` is the
probe-measurement environment (`_getPixelsInOneEm` by element id,
a `clientHeight`, hence a natural number).  For an element node the
walk measures the element, then — only when the measured size is
positive (the loop body's `if(pxInEm > 0)` guard) — recurses into each
child in order passing the measured size, and finally, when
`parentEmSize` is truthy (supplied and nonzero), rewrites the element's
own styles.  Non-element nodes do nothing. -/
def _recurseElement (m : ℕ → ℕ) : DNode → Option ℕ → List Ev
  | .other _, _ => []
  | .elem id cs, parentEmSize =>
    Ev.measure id ::
      ((if 0 < m id then recurseChildren m cs (m id) else []) ++
        (match parentEmSize with
         | some s => if s ≠ 0 then [Ev.convert id s] else []
         | none => []))

/-- The `for` loop of `_recurseElement` over `element.childNodes`,
once the `pxInEm > 0` guard has passed: recurse into each child in
order, passing the parent's measured em size. -/
def recurseChildren (m : ℕ → ℕ) : DForest → ℕ → List Ev
  | .nil, _ => []
  | .cons c rest, px => _recurseElement m c (some px) ++ recurseChildren m rest px

end

mutual

/-- The ids of all element nodes in a node's subtree, the node itself
included. -/
def elemIds : DNode → List ℕ
  | .other _ => []
  | .elem id cs => id :: forestElemIds cs

/-- The ids of all element nodes in a forest of subtrees. -/
def forestElemIds : DForest → List ℕ
  | .nil => []
  | .cons c rest => elemIds c ++ forestElemIds rest

end

/-- The ids of the element nodes strictly below a node (its
descendants). -/
def descendantElemIds : DNode → List ℕ
  | .other _ => []
  | .elem _ cs => forestElemIds cs

/-- The ids whose styles a trace rewrites (the targets of its `convert`
events). -/
def convertTargets (t : List Ev) : List ℕ :=
  t.filterMap (fun e => match e with | .convert id _ => some id | .measure _ => none)

/-- A CSS rule as consumed by `_getAppliedCSS`: its selector text and
its full rule text. -/
structure CssRule where
  selectorText : String
  cssText : String

/-- The outcome of `el.matches(selector)` for the element at hand:
`none` models the call throwing (the iOS Chrome quirk at `::`
pseudo-selectors), `some b` a normal return. -/
def MatchOracle : Type := String → Option Bool

/-- Function `_getAppliedCSS` (lines 84-112) for a fixed element, over the
document's style sheets: iterate over every rule of every sheet; when
`el.matches(rules[r].selectorText)` throws, the `catch` suppresses the
exception and iteration continues with the next rule; when it returns
`true` the rule's `cssText` is pushed; the collected texts are joined
with the empty separator. -/
def _getAppliedCSS (matchesEl : MatchOracle) (sheets : List (List CssRule)) : String :=
  String.join ((sheets.flatten.filterMap
    (fun r => match matchesEl r.selectorText with
      | some true => some r.cssText
      | some false => none
      | none => none)))

/-- The rules-with-exceptions-skipped reading of the spec sentence: a
throwing rule is treated exactly like a non-matching rule. -/
def appliedCSSSpec (matchesEl : MatchOracle) (sheets : List (List CssRule)) : String :=
  String.join (((sheets.flatten.filter
    (fun r => matchesEl r.selectorText = some true)).map (fun r => r.cssText)))

/-- Whether a string is a canonical array-index property key
(`"0"`, `"1"`, ... with no leading zeros): the only string keys under
which a JavaScript array literal of strings stores own properties. -/
def isArrayIndexKey (s : String) : Bool :=
  s.data ≠ [] ∧ s.data.all (fun c => c.isDigit) ∧ (s.data.head? = some '0' → s.data = ['0'])

/-- Property read `arr[key]` on an array of strings for a string key:
defined (the element) only when `key` is a canonical index below the
length; every other key — `'font-size'` included — reads `undefined`
(`none`). -/
def jsArrayProp (arr : List String) (key : String) : Option String :=
  if isArrayIndexKey key then arr.get? (valOfDigits 10 (digitRun decDigit key.data)) else none

/-- The watch-styles adjustment in `_initialize` (lines 283-288):
`if(!_watchStyles['font-size']) { _watchStyles.push('font-size'); }`.
The guard reads the `'font-size'` property of the array; `undefined`
and the empty string are falsy, any other string truthy. -/
def initializeWatchStyles (ws : List String) : List String :=
  match jsArrayProp ws "font-size" with
  | none => ws ++ ["font-size"]
  | some v => if v = "" then ws ++ ["font-size"] else ws

/-- The default `_watchStyles` list (line 45), used when the
`watchStyles` constructor argument is omitted or falsy. -/
def defaultWatchStyles : List String :=
  ["font-size", "line-height", "padding-top", "padding-right", "padding-bottom",
   "padding-left", "margin-top", "margin-right", "margin-bottom", "margin-left",
   "top", "right", "bottom", "left"]

@[simp]
theorem convertTargets_nil : convertTargets [] = [] := rfl

@[simp]
theorem convertTargets_cons_measure (i : ℕ) (t : List Ev) :
    convertTargets (Ev.measure i :: t) = convertTargets t := rfl

@[simp]
theorem convertTargets_cons_convert (i s : ℕ) (t : List Ev) :
    convertTargets (Ev.convert i s :: t) = i :: convertTargets t := rfl

@[simp]
theorem convertTargets_append (t₁ t₂ : List Ev) :
    convertTargets (t₁ ++ t₂) = convertTargets t₁ ++ convertTargets t₂ :=
  List.filterMap_append ..

mutual

theorem convertTargets_node_subset (m : ℕ → ℕ) : (n : DNode) → (pE : Option ℕ) →
    convertTargets (_recurseElement m n pE) ⊆ elemIds n
  | .other _, _ => by simp [_recurseElement]
  | .elem id cs, pE => by
    intro a ha
    simp only [_recurseElement, convertTargets_cons_measure, convertTargets_append,
      List.mem_append] at ha
    simp only [elemIds, List.mem_cons]
    rcases ha with ha | ha
    · by_cases h : 0 < m id
      · rw [if_pos h] at ha
        exact Or.inr (convertTargets_children_subset m cs (m id) ha)
      · rw [if_neg h] at ha
        simp at ha
    · rcases pE with _ | s
      · simp at ha
      · by_cases hs : s = 0
        · simp [hs] at ha
        · simp [hs] at ha
          exact Or.inl ha

theorem convertTargets_children_subset (m : ℕ → ℕ) : (cs : DForest) → (px : ℕ) →
    convertTargets (recurseChildren m cs px) ⊆ forestElemIds cs
  | .nil, _ => by simp [recurseChildren]
  | .cons c rest, px => by
    intro a ha
    simp only [recurseChildren, convertTargets_append, List.mem_append] at ha
    simp only [forestElemIds, List.mem_append]
    rcases ha with ha | ha
    · exact Or.inl (convertTargets_node_subset m c (some px) ha)
    · exact Or.inr (convertTargets_children_subset m rest px ha)

end

/-- C1: the `minimumScale` constructor parameter (`_minScale`) is never
read by the runtime scaling: every post-construction operation —
`Shrink`, `Enable`, `Disable` and resize events included — produces the
same state for any two values of `minScale`, so the font size written by
`Shrink` is identical for any two values of `minimumScale` and is never
floored at the minimum-scale threshold. -/
theorem minScale_never_enforced (cfg : Config) (m₁ m₂ : ℚ) (st : SState) (op : Op) :
    step ⟨cfg.el, cfg.fullWidth, m₁, cfg.watchStyles,
        cfg.encapsulatingFontSize, cfg.encapsulatingFontUnits⟩ st op =
      step ⟨cfg.el, cfg.fullWidth, m₂, cfg.watchStyles,
        cfg.encapsulatingFontSize, cfg.encapsulatingFontUnits⟩ st op := by
  cases op <;> rfl

theorem getScale_three_one : _getScale 3 1 = 3333 / 10000 := by
  unfold _getScale toFixed2Val round2
  rw [show Int.floor ((100 * (1:ℚ) / 3) * 100 + 1/2) = 3333 by norm_num]
  rw [show (3333:ℤ).toNat = (3333:ℕ) from rfl]
  norm_num

/-- C2 (counterexample): with `originalWidth = 3`, captured font size
`3px` and current `clientWidth = 1`, `_shrink` does not write
`3 * (1/3) = 1`; it writes `3 * 0.3333 = 0.9999`, because `_getScale`
rounds the percentage `100/3` to two decimal places.  So the font size
written is not the captured size times the exact
`clientWidth / originalWidth` ratio. -/
theorem shrink_not_exact_ratio :
    _shrink ⟨0, 3, 1/2, [], 3, "px"⟩ 1 (fun _ _ => StyleVal.unset : Dom) 0 "font-size"
      ≠ StyleVal.written ((3 : ℚ) * (1 / 3)) "px" := by
  have hne : StyleVal.written (((3:ℕ):ℚ) * _getScale 3 1) "px"
      ≠ StyleVal.written ((3 : ℚ) * (1 / 3)) "px" := by
    rw [getScale_three_one]
    simp only [ne_eq, StyleVal.written.injEq, not_and]
    intro h
    norm_num at h
  simpa [_shrink, setStyle] using hne

/-- C2 (amended): on every window resize with the listener attached, and
on the immediate call made by `Enable`, the target's font-size is set to
the captured numeric size multiplied by
`_getScale(originalWidth, clientWidth)` — the current-to-original width
ratio expressed as a percentage, rounded to two decimal places, divided
by 100, and 0 when `originalWidth ≤ 0` — with the captured units
appended. -/
theorem shrink_writes_rounded_ratio (cfg : Config) (st : SState) (cw : ℚ)
    (h : st.listenerAttached = true) :
    (step cfg st (Op.resizeEvent cw)).dom cfg.el "font-size" =
        StyleVal.written ((cfg.encapsulatingFontSize : ℚ) * _getScale cfg.fullWidth cw)
          cfg.encapsulatingFontUnits ∧
    (step cfg st (Op.enable cw)).dom cfg.el "font-size" =
        StyleVal.written ((cfg.encapsulatingFontSize : ℚ) * _getScale cfg.fullWidth cw)
          cfg.encapsulatingFontUnits := by
  constructor <;> simp [step, h, _shrink, setStyle]

/-- C2 (witness): a resize event at client width 1, with the listener
attached, `originalWidth = 3` and captured size `3px`, writes
`0.9999px`. -/
theorem shrink_writes_rounded_ratio_witness :
    (step ⟨0, 3, 1/2, [], 3, "px"⟩ ⟨(fun _ _ => StyleVal.unset : Dom), true⟩
        (Op.resizeEvent 1)).dom 0 "font-size" =
      StyleVal.written (9999/10000 : ℚ) "px" :=
  (shrink_writes_rounded_ratio ⟨0, 3, 1/2, [], 3, "px"⟩
    ⟨(fun _ _ => StyleVal.unset : Dom), true⟩ 1 rfl).1.trans
    (by norm_num [getScale_three_one])

/-- C3 (counterexample): the object returned by the constructor does not
have exactly the two public methods `Enable` and `Disable`: it also
exposes `Shrink`, so it has three keys. -/
theorem public_interface_not_two_methods :
    "Shrink" ∈ returnedMethodNames ∧ returnedMethodNames.length ≠ 2 := by decide

/-- C3 (amended): the constructor returns an object with exactly the
three public methods `Shrink`, `Enable` and `Disable`; `Enable` attaches
the window resize listener (and triggers an immediate shrink) and
`Disable` removes it (and normalizes). -/
theorem public_interface_three_methods :
    returnedMethodNames = ["Shrink", "Enable", "Disable"] ∧
    (∀ (cfg : Config) (st : SState) (cw : ℚ),
      (step cfg st (Op.enable cw)).listenerAttached = true) ∧
    (∀ (cfg : Config) (st : SState),
      (step cfg st Op.disable).listenerAttached = false) :=
  ⟨rfl, fun _ _ _ => rfl, fun _ _ => rfl⟩

/-- C4 (counterexample): the walk does not recurse into every child of a
visited element node.  With element 0 (probe measure 1) having element
child 1 (probe measure 0), which has element child 2: element 1 is
visited and its styles are rewritten, but element 2 — a child node of
the visited element 1 — is never recursed into: its measurement never
happens and the whole trace is `[measure 0, measure 1, convert 1 1]`. -/
theorem walk_skips_children_of_zero_measure :
    _recurseElement (fun i => if i = 1 then 0 else 1)
        (DNode.elem 0 (DForest.cons
          (DNode.elem 1 (DForest.cons (DNode.elem 2 DForest.nil) DForest.nil))
          DForest.nil)) none
      = [Ev.measure 0, Ev.measure 1, Ev.convert 1 1] ∧
    Ev.measure 2 ∉
      _recurseElement (fun i => if i = 1 then 0 else 1)
        (DNode.elem 0 (DForest.cons
          (DNode.elem 1 (DForest.cons (DNode.elem 2 DForest.nil) DForest.nil))
          DForest.nil)) none := by decide

/-- C4 (amended): for every element node visited with a truthy parent em
size, whose own probe measure is positive, the walk first measures the
element, then recurses into each of its child nodes in order passing the
measured size, and only afterwards — as the last action — rewrites the
element's own watched styles relative to the em size passed from its
parent.  (Children of an element whose probe measures 0 are skipped.) -/
theorem walk_children_before_conversion (m : ℕ → ℕ) (id : ℕ) (cs : DForest) (s : ℕ)
    (hs : s ≠ 0) (hm : 0 < m id) :
    _recurseElement m (DNode.elem id cs) (some s)
      = Ev.measure id :: (recurseChildren m cs (m id) ++ [Ev.convert id s]) := by
  simp [_recurseElement, if_pos hm, hs]

/-- C4 (witness): a concrete instance of the ordering equation, with an
element of id 0, probe measure 1, one element child of id 1 and parent
em size 2. -/
theorem walk_children_before_conversion_witness :
    _recurseElement (fun _ => 1)
        (DNode.elem 0 (DForest.cons (DNode.elem 1 DForest.nil) DForest.nil)) (some 2)
      = Ev.measure 0 :: (recurseChildren (fun _ => 1)
          (DForest.cons (DNode.elem 1 DForest.nil) DForest.nil) 1 ++ [Ev.convert 0 2]) :=
  walk_children_before_conversion (fun _ => 1) 0
    (DForest.cons (DNode.elem 1 DForest.nil) DForest.nil) 2 (by decide) (by decide)

/-- C5: the conversion walk started by `_initialize` —
`_recurseElement(_el)` with no parent em size — rewrites styles only on
elements strictly below the root: every target of a `convert` action is
the id of a descendant element, so the root's own style properties are
left unchanged by the walk. -/
theorem walk_converts_only_descendants (m : ℕ → ℕ) (root : DNode) :
    convertTargets (_recurseElement m root none) ⊆ descendantElemIds root := by
  intro a ha
  cases root with
  | other i => simp [_recurseElement] at ha
  | elem id cs =>
    simp only [_recurseElement, convertTargets_cons_measure, convertTargets_append,
      List.mem_append] at ha
    simp only [descendantElemIds]
    rcases ha with ha | ha
    · by_cases h : 0 < m id
      · rw [if_pos h] at ha
        exact convertTargets_children_subset m cs (m id) ha
      · rw [if_neg h] at ha
        simp at ha
    · simp at ha

/-- C5 (witness): on the tree with root 0 and element child 1, all
measures 1, the only converted id, 1, is indeed a descendant of the
root. -/
theorem walk_converts_only_descendants_witness :
    (1 : ℕ) ∈ descendantElemIds
      (DNode.elem 0 (DForest.cons (DNode.elem 1 DForest.nil) DForest.nil)) :=
  walk_converts_only_descendants (fun _ => 1)
    (DNode.elem 0 (DForest.cons (DNode.elem 1 DForest.nil) DForest.nil)) (by decide)

/-- C6: for a positive parent em size, `_getStyleValueInEm` returns the
input string unchanged whenever `parseInt` of it is `NaN` or `0`
(non-numeric values, zero values, and compound shorthands whose leading
token is `0`), and when the leading token parses to a nonzero integer
`n` it returns `n` divided by the parent em size, fixed to two decimal
places, with `'em'` appended. -/
theorem styleValue_conversion_cases (s : String) (p : ℚ) (_hp : 0 < p) :
    (jsParseInt s = none → _getStyleValueInEm s p = s) ∧
    (jsParseInt s = some 0 → _getStyleValueInEm s p = s) ∧
    (∀ n : ℤ, jsParseInt s = some n → n ≠ 0 →
      _getStyleValueInEm s p = toFixed2 ((n : ℚ) / p) ++ "em") := by
  refine ⟨fun h => ?_, fun h => ?_, fun n h hn => ?_⟩
  · simp [_getStyleValueInEm, h]
  · simp [_getStyleValueInEm, h]
  · simp [_getStyleValueInEm, h, hn]

/-- C6 (witness): at parent em size 16, the compound shorthand
`"0 0 0 0 !important"` is returned unchanged, and `"12px"` becomes
`"0.75em"`. -/
theorem styleValue_conversion_cases_witness :
    _getStyleValueInEm "0 0 0 0 !important" 16 = "0 0 0 0 !important" ∧
    _getStyleValueInEm "12px" 16 = "0.75em" := by
  constructor
  · exact (styleValue_conversion_cases "0 0 0 0 !important" 16 (by norm_num)).2.1 (by decide)
  · refine ((styleValue_conversion_cases "12px" 16 (by norm_num)).2.2 12 (by decide)
      (by decide)).trans ?_
    rw [show (((12:ℤ) : ℚ)) / 16 = 3/4 by norm_num]
    have hr : round2 (3/4 : ℚ) = 75 := by unfold round2; norm_num
    unfold toFixed2
    rw [if_neg (by norm_num : ¬(3/4:ℚ) < 0), hr]
    decide

/-- C7: `_shrink` touches only the root's font-size: every style slot
other than the target element's `font-size` property is unchanged by an
invocation of `Shrink`. -/
theorem shrink_touches_only_root_fontSize (cfg : Config) (cw : ℚ) (dom : Dom)
    (e : ℕ) (prop : String) (h : ¬(e = cfg.el ∧ prop = "font-size")) :
    _shrink cfg cw dom e prop = dom e prop := by
  simp only [_shrink, setStyle, if_neg h]

/-- C7 (witness): shrinking with target element 0 leaves element 1's
font-size slot untouched. -/
theorem shrink_touches_only_root_fontSize_witness :
    _shrink ⟨0, 3, 1/2, [], 3, "px"⟩ 5 (fun _ _ => StyleVal.unset : Dom) 1 "font-size"
      = StyleVal.unset :=
  shrink_touches_only_root_fontSize ⟨0, 3, 1/2, [], 3, "px"⟩ 5
    (fun _ _ => StyleVal.unset : Dom) 1 "font-size" (by decide)

/-- C8: `_getAppliedCSS` treats a rule whose selector matching throws
exactly like a non-matching rule — the exception is suppressed and
iteration continues with the remaining rules — so for every matching
oracle (throwing selectors included) it returns the concatenation of the
`cssText` of exactly the successfully matching rules. -/
theorem appliedCSS_suppresses_matching_errors (matchesEl : MatchOracle)
    (sheets : List (List CssRule)) :
    _getAppliedCSS matchesEl sheets = appliedCSSSpec matchesEl sheets := by
  unfold _getAppliedCSS appliedCSSSpec
  refine congrArg String.join ?_
  induction sheets.flatten with
  | nil => rfl
  | cons r rest ih =>
    rcases hm : matchesEl r.selectorText with _ | b
    · simp [List.filterMap_cons, List.filter_cons, hm, ih]
    · cases b <;> simp [List.filterMap_cons, List.filter_cons, hm, ih]

/-- C9: at construction `'font-size'` is unconditionally appended to the
watch list, because the guard reads the `'font-size'` object property of
the array, which is `undefined` for every array of strings: the adjusted
list is always `ws ++ ['font-size']`, hence ends with `'font-size'` and
contains it twice whenever it was already present (as in the default
list). -/
theorem fontSize_always_appended (ws : List String) :
    initializeWatchStyles ws = ws ++ ["font-size"] ∧
    ("font-size" ∈ ws → 2 ≤ (ws ++ ["font-size"]).count "font-size") := by
  have hkey : jsArrayProp ws "font-size" = none := by
    unfold jsArrayProp
    have hk : isArrayIndexKey "font-size" = false := by decide
    rw [hk]
    simp
  constructor
  · unfold initializeWatchStyles
    rw [hkey]
  · intro hmem
    have h1 : 0 < ws.count "font-size" := List.count_pos_iff.mpr hmem
    have h2 : (ws ++ ["font-size"]).count "font-size"
        = ws.count "font-size" + 1 := by
      rw [List.count_append]
      simp
    omega

/-- C9 (witness): the default watch list already contains `'font-size'`;
after construction it ends with a second copy. -/
theorem fontSize_always_appended_witness :
    initializeWatchStyles defaultWatchStyles = defaultWatchStyles ++ ["font-size"] ∧
    2 ≤ (defaultWatchStyles ++ ["font-size"]).count "font-size" :=
  ⟨(fontSize_always_appended defaultWatchStyles).1,
    (fontSize_always_appended defaultWatchStyles).2 (by decide)⟩

/-- C10: after any sequence of post-construction operations (`Enable`,
`Shrink`, resize events, even earlier `Disable`s), calling `Disable`
removes the resize listener and restores the target's font-size to the
numeric size captured at construction with the captured units. -/
theorem disable_restores_captured_fontSize (cfg : Config) (st0 : SState)
    (ops : List Op) :
    (step cfg (ops.foldl (step cfg) st0) Op.disable).dom cfg.el "font-size"
        = StyleVal.written (cfg.encapsulatingFontSize : ℚ) cfg.encapsulatingFontUnits ∧
    (step cfg (ops.foldl (step cfg) st0) Op.disable).listenerAttached = false := by
  constructor
  · simp [step, _normalize, setStyle]
  · rfl

end Shrinkable
